import Mathlib

/-!
# yaft-cocoa: the data model of `yaft.h`

A shallow embedding of the constants and records declared in
`src/yaft-cocoa/yaft/yaft.h`.  A C `enum` becomes an inductive type of its
tags together with a function `val` giving the integer the header assigns to
each tag; a field that holds such integers combined with `|` and `&` is a
`Nat`.  A C `struct` becomes a `structure` with the same field names.
-/

namespace Yaft

/-! ## Enumerations -/

/-- The tags of `enum char_code`. -/
inductive char_code where
  | BEL | BS | HT | LF | VT | FF | CR | ESC | DEL | SPACE | BACKSLASH
  deriving DecidableEq, Repr, Fintype

/-- The integer value of each `char_code` tag. -/
def char_code.val : char_code → Nat
  | .BEL => 0x07
  | .BS => 0x08
  | .HT => 0x09
  | .LF => 0x0A
  | .VT => 0x0B
  | .FF => 0x0C
  | .CR => 0x0D
  | .ESC => 0x1B
  | .DEL => 0x7F
  | .SPACE => 0x20
  | .BACKSLASH => 0x5C

/-- Constant `BUFSIZE` of `enum misc`: read, esc, various buffer size. -/
def BUFSIZE : Nat := 1024
/-- Constant `BITS_PER_BYTE` of `enum misc`. -/
def BITS_PER_BYTE : Nat := 8
/-- Constant `BITS_PER_PIXEL` of `enum misc`: RGBA, each 1 byte. -/
def BITS_PER_PIXEL : Nat := BITS_PER_BYTE * 4
/-- Constant `ESCSEQ_SIZE` of `enum misc`: limit size of terminal escape sequence. -/
def ESCSEQ_SIZE : Nat := 1024
/-- Constant `SELECT_TIMEOUT` of `enum misc` (micro seconds). -/
def SELECT_TIMEOUT : Nat := 15000
/-- Constant `SLEEP_TIME` of `enum misc` (micro seconds). -/
def SLEEP_TIME : Nat := 30000
/-- Constant `MAX_ARGS` of `enum misc`: max parameters of csi/osc sequence. -/
def MAX_ARGS : Nat := 16
/-- Constant `UCS2_CHARS` of `enum misc`: number of UCS2 glyphs. -/
def UCS2_CHARS : Nat := 0x10000
/-- Constant `CTRL_CHARS` of `enum misc`: number of ctrl_func. -/
def CTRL_CHARS : Nat := 0x20
/-- Constant `ESC_CHARS` of `enum misc`: number of esc_func. -/
def ESC_CHARS : Nat := 0x80
/-- Constant `DEFAULT_CHAR` of `enum misc`: used for erase char. -/
def DEFAULT_CHAR : Nat := char_code.SPACE.val
/-- Constant `BRIGHT_INC` of `enum misc`: value used for brightening color. -/
def BRIGHT_INC : Nat := 8

/-- The tags of `enum char_attr`. -/
inductive char_attr where
  | ATTR_RESET | ATTR_BOLD | ATTR_UNDERLINE | ATTR_BLINK | ATTR_REVERSE
  deriving DecidableEq, Repr, Fintype

/-- The integer value of each `char_attr` tag. -/
def char_attr.val : char_attr → Nat
  | .ATTR_RESET => 0
  | .ATTR_BOLD => 1
  | .ATTR_UNDERLINE => 4
  | .ATTR_BLINK => 5
  | .ATTR_REVERSE => 7

/-- Constant `OSC_GWREPT` of `enum osc`: mode number of yaft GWREPT. -/
def OSC_GWREPT : Nat := 8900

/-- The tags of `enum term_mode`. -/
inductive term_mode where
  | MODE_RESET | MODE_ORIGIN | MODE_CURSOR | MODE_AMRIGHT | MODE_VWBS
  deriving DecidableEq, Repr, Fintype

/-- The integer value of each `term_mode` tag. -/
def term_mode.val : term_mode → Nat
  | .MODE_RESET => 0x00
  | .MODE_ORIGIN => 0x01
  | .MODE_CURSOR => 0x02
  | .MODE_AMRIGHT => 0x04
  | .MODE_VWBS => 0x08

/-- The tags of `enum esc_state`. -/
inductive esc_state where
  | STATE_RESET | STATE_ESC | STATE_CSI | STATE_OSC | STATE_DCS
  deriving DecidableEq, Repr, Fintype

/-- The integer value of each `esc_state` tag. -/
def esc_state.val : esc_state → Nat
  | .STATE_RESET => 0x00
  | .STATE_ESC => 0x01
  | .STATE_CSI => 0x02
  | .STATE_OSC => 0x04
  | .STATE_DCS => 0x08

/-- The tags of `enum glyph_width`; the header numbers them implicitly from
`NEXT_TO_WIDE = 0`. -/
inductive glyph_width where
  | NEXT_TO_WIDE | HALF | WIDE
  deriving DecidableEq, Repr, Fintype

/-- The integer value of each `glyph_width` tag. -/
def glyph_width.val : glyph_width → Nat
  | .NEXT_TO_WIDE => 0
  | .HALF => 0 + 1
  | .WIDE => 0 + 1 + 1

/-- The tags of `enum loglevel_t`. -/
inductive loglevel_t where
  | LOG_DEBUG | LOG_WARN | LOG_ERROR | LOG_FATAL
  deriving DecidableEq, Repr, Fintype

/-- The integer value of each `loglevel_t` tag. -/
def loglevel_t.val : loglevel_t → Nat
  | .LOG_DEBUG => 0
  | .LOG_WARN => 0 + 1
  | .LOG_ERROR => 0 + 1 + 1
  | .LOG_FATAL => 0 + 1 + 1 + 1

/-! ## Records -/

/-- The record `struct margin_t`; both fields are `uint16_t`. -/
structure margin_t where
  top : Nat
  bottom : Nat
  deriving DecidableEq, Repr

/-- The record `struct point_t`; both fields are `uint16_t`. -/
structure point_t where
  x : Nat
  y : Nat
  deriving DecidableEq, Repr

/-- The record `struct color_pair_t`; both fields are `uint8_t`. -/
structure color_pair_t where
  fg : Nat
  bg : Nat
  deriving DecidableEq, Repr

/-- The record `struct cell_t`.  `G` stands for `struct glyph_t`, which is
declared in `glyph.h`; `glyphp` is a pointer and may be null.  The C field
`attribute` is named `attr` here, the former being a reserved word. -/
structure cell_t (G : Type) where
  glyphp : Option G
  color_pair : color_pair_t
  attr : Nat
  width : glyph_width

/-- The record `struct esc_t`.  The buffer `buf` is kept as its bytes and
the write pointer `bp` as an offset into it. -/
structure esc_t where
  buf : List Nat
  bp : Nat
  size : Int
  state : Nat
  deriving DecidableEq, Repr

/-- The record `struct charset_t`; `code` is a `uint32_t`. -/
structure charset_t where
  code : Nat
  following_byte : Int
  count : Int
  is_valid : Bool
  deriving DecidableEq, Repr

/-- The record `struct state_t`, for save and restore; the C field
`attribute` is named `attr`. -/
structure state_t where
  cursor : point_t
  mode : Nat
  attr : Nat
  deriving DecidableEq, Repr

/-- The record `struct terminal_t`.  The field `cells` has the type
`struct cell_t **` and is kept as the rows of cells it points to, so that
`cells[y][x]` is the cell at column `x` of line `y`.  The last field is the array
`glyph[UCS2_CHARS]` of pointers: one slot for each index below
`UCS2_CHARS`.  The C field `attribute` is named `attr`. -/
structure terminal_t (G : Type) where
  fd : Int
  width : Int
  height : Int
  cols : Int
  lines : Int
  cells : List (List (cell_t G))
  scroll : margin_t
  cursor : point_t
  line_dirty : List Bool
  tabstop : List Bool
  mode : Nat
  wrap_occured : Bool
  state : state_t
  color_pair : color_pair_t
  attr : Nat
  charset : charset_t
  esc : esc_t
  glyph : Fin UCS2_CHARS → Option G

/-- The record `struct parm_t`, for `parse_arg()`.  The field `argv` is the
array `argv[MAX_ARGS]` of string pointers, each of which is null or points to
a byte string: exactly `MAX_ARGS` slots. -/
structure parm_t where
  argc : Int
  argv : Fin MAX_ARGS → Option (List Nat)

/-! ## The C expressions the header's constants are used in -/

/-- The C expression that ORs the values of a list of attribute tags into one
attribute value, `a1 | a2 | ...`, starting from `ATTR_RESET`. -/
def attrSet (s : List char_attr) : Nat :=
  s.foldl (fun v a => v ||| a.val) char_attr.ATTR_RESET.val

/-- The C test `v & a`: whether the attribute value `v` has a bit of tag `a`. -/
def attrTest (v : Nat) (a : char_attr) : Bool :=
  (v &&& a.val) != 0

/-- Modelled from the spec: the shape of the grid, "a lines × cols array of
Cell": `lines` rows of `cols` cells each.  The routine that allocates the
grid is not part of the header, which only declares the field `cells` and the
sizes `cols` and `lines`. -/
def isGrid {α : Type} (cols lines : Nat) (rows : List (List α)) : Prop :=
  rows.length = lines ∧ ∀ r ∈ rows, r.length = cols

instance {α : Type} (cols lines : Nat) (rows : List (List α)) :
    Decidable (isGrid cols lines rows) :=
  inferInstanceAs (Decidable (rows.length = lines ∧ ∀ r ∈ rows, r.length = cols))

/-- The cell `cells[y][x]` at column `x` of line `y`, read with bounds
checks. -/
def cellAt {α : Type} (rows : List (List α)) (x y : Nat) : Option α :=
  (rows[y]?).bind (fun r => r[x]?)

/-- Modelled from the spec: the cell index of position (x, y) in a grid that is
"row-major" with `cols` cells to the row: line `y` starts at `y * cols`.  No
routine of the header computes an index; the comment on the field `cells`
writes one with `lines` in the place of `cols`, which is not row-major and is
not embedded here. -/
def rowMajorIndex (cols x y : Nat) : Nat :=
  y * cols + x

/-- The C test `s == t` of a state value against a tag. -/
def stateEq (s t : esc_state) : Bool :=
  s.val == t.val

/-- The C test `s & t` of a state value against a tag. -/
def stateAnd (s t : esc_state) : Bool :=
  (s.val &&& t.val) != 0

/-- Testing a state value against a tag: `s == t` for `STATE_RESET`, which has
no bit, and `s & t` for the other tags. -/
def stateTest (s t : esc_state) : Bool :=
  if t = esc_state.STATE_RESET then stateEq s t else stateAnd s t

/-- The C expression `m | f`, setting flag `f` in the mode word `m`. -/
def modeSet (m : Nat) (f : term_mode) : Nat :=
  m ||| f.val

/-- The C expression `m & ~f`, resetting flag `f` in the mode word `m`; the
complement is taken in the 32 bits of an `int`. -/
def modeReset (m : Nat) (f : term_mode) : Nat :=
  m &&& (0xFFFFFFFF ^^^ f.val)

/-- The C test `m & g`: whether flag `g` is set in the mode word `m`. -/
def modeTest (m : Nat) (g : term_mode) : Bool :=
  (m &&& g.val) != 0

/-- The number of slots of `argv` that hold a string (are not null). -/
def parm_t.filled (p : parm_t) : Nat :=
  (List.finRange MAX_ARGS).countP (fun i => (p.argv i).isSome)

/-- A `parm_t` is well formed when `argc` counts the filled slots of `argv`. -/
def parm_t.wellFormed (p : parm_t) : Prop :=
  p.argc = (p.filled : Int)

instance (p : parm_t) : Decidable p.wellFormed :=
  inferInstanceAs (Decidable (p.argc = (p.filled : Int)))

/-- A `parm_t` holding the two arguments "1" and "22". -/
def parm_two : parm_t where
  argc := 2
  argv := fun i => if i.val = 0 then some [0x31] else if i.val = 1 then some [0x32, 0x32] else none

/-- Bounds-checked read of slot `c` of the array `glyph[UCS2_CHARS]`: `none`
when `c` is not an index of the array. -/
def terminal_t.glyphAt {G : Type} (t : terminal_t G) (c : Nat) : Option (Option G) :=
  if h : c < UCS2_CHARS then some (t.glyph ⟨c, h⟩) else none

/-- Modelled from the spec: the column count of a glyph by its width class.
The spec gives a glyph the width class HALF or WIDE, has a wide character
occupy two grid columns and has half-width characters fill one column each;
`NEXT_TO_WIDE` is the width of a placeholder cell and not the class of a
glyph. -/
def glyph_width.columnCount : glyph_width → Option Nat
  | .HALF => some 1
  | .WIDE => some 2
  | .NEXT_TO_WIDE => none

/-- Modelled from the spec: the write-and-advance step of glyph placement, on
one row of the grid seen through the widths of its cells, with the cursor at
column `x`: write the cell at the cursor with the width of the glyph, for a
WIDE glyph also write a `NEXT_TO_WIDE` placeholder at the next column, then
advance the cursor by the column count of the glyph.  The placement routine
is not part of the header.  Only a placement that leaves the cursor inside
the row is modelled; at the right edge the wrap and clamp rules of the spec
take over, and the result is `none`, as it is for `NEXT_TO_WIDE`, which
placement never writes on its own. -/
def placeGlyph (row : List glyph_width) (x : Nat) (g : glyph_width) :
    Option (List glyph_width × Nat) :=
  match g.columnCount with
  | none => none
  | some n =>
    if x + n < row.length then
      let written := row.set x g
      some (if g = glyph_width.WIDE then written.set (x + 1) glyph_width.NEXT_TO_WIDE
            else written, x + n)
    else none

/-! ## Helper lemmas on bitwise tests -/

theorem or_and_of_disjoint (m a b : Nat) (h : a &&& b = 0) :
    (m ||| a) &&& b = m &&& b := by
  rw [Nat.and_distrib_right, h, Nat.or_zero]

theorem and_mask_and (m k b : Nat) (h : k &&& b = b) :
    (m &&& k) &&& b = m &&& b := by
  rw [Nat.and_assoc, h]

/-! ## Control codes -/

/-- C6: the control codes have exactly the byte values of the protocol
surface, BEL = 0x07, BS = 0x08, HT = 0x09, LF = 0x0A, VT = 0x0B, FF = 0x0C,
CR = 0x0D, ESC = 0x1B, DEL = 0x7F, and these nine values are pairwise
distinct. -/
theorem char_code_control_values :
    char_code.BEL.val = 0x07 ∧ char_code.BS.val = 0x08 ∧ char_code.HT.val = 0x09 ∧
    char_code.LF.val = 0x0A ∧ char_code.VT.val = 0x0B ∧ char_code.FF.val = 0x0C ∧
    char_code.CR.val = 0x0D ∧ char_code.ESC.val = 0x1B ∧ char_code.DEL.val = 0x7F ∧
    ([char_code.BEL, char_code.BS, char_code.HT, char_code.LF, char_code.VT,
      char_code.FF, char_code.CR, char_code.ESC, char_code.DEL].map char_code.val).Nodup := by
  decide

/-- C10: BEL, BS, HT, LF, VT, FF, CR and ESC are exactly the `char_code`
values below `CTRL_CHARS` = 0x20, so each indexes a table of `CTRL_CHARS`
entries while DEL does not; every `char_code` value, DEL, SPACE and BACKSLASH
included, is below `ESC_CHARS` = 0x80. -/
theorem char_code_table_ranges :
    CTRL_CHARS = 0x20 ∧ ESC_CHARS = 0x80 ∧
    (∀ c : char_code, c.val < CTRL_CHARS ↔
      c ∈ [char_code.BEL, char_code.BS, char_code.HT, char_code.LF, char_code.VT,
           char_code.FF, char_code.CR, char_code.ESC]) ∧
    ¬ (char_code.DEL.val < CTRL_CHARS) ∧
    (∀ c : char_code, c.val < ESC_CHARS) := by
  decide

/-! ## Cell attributes -/

/-- C2, as stated, fails: bold and blink are different attributes whose
values share bit 0, and the value made by OR-ing bold and underline, 5, tests
positive for blink and for reverse, which were not put in. -/
theorem char_attr_not_bit_flags :
    char_attr.ATTR_BOLD ≠ char_attr.ATTR_BLINK ∧
    char_attr.ATTR_BOLD.val &&& char_attr.ATTR_BLINK.val = 1 ∧
    attrSet [char_attr.ATTR_BOLD, char_attr.ATTR_UNDERLINE] = char_attr.ATTR_BLINK.val ∧
    attrTest (attrSet [char_attr.ATTR_BOLD, char_attr.ATTR_UNDERLINE])
      char_attr.ATTR_BLINK = true ∧
    attrTest (attrSet [char_attr.ATTR_BOLD, char_attr.ATTR_UNDERLINE])
      char_attr.ATTR_REVERSE = true := by
  decide

/-- C2, amended: the `char_attr` values of bold, underline, blink and reverse
are the SGR parameter numbers 1, 4, 5 and 7: non-zero, pairwise distinct and
below 8, with `ATTR_RESET` = 0.  Two different ones share no bit only when
they are bold and underline. -/
theorem char_attr_sgr_numbers :
    char_attr.ATTR_RESET.val = 0 ∧ char_attr.ATTR_BOLD.val = 1 ∧
    char_attr.ATTR_UNDERLINE.val = 4 ∧ char_attr.ATTR_BLINK.val = 5 ∧
    char_attr.ATTR_REVERSE.val = 7 ∧
    (∀ a : char_attr, a.val = 0 ↔ a = char_attr.ATTR_RESET) ∧
    (∀ a : char_attr, a.val < 8) ∧
    Function.Injective char_attr.val ∧
    (∀ a b : char_attr, (a ≠ b ∧ a.val ≠ 0 ∧ b.val ≠ 0 ∧ a.val &&& b.val = 0) ↔
      ((a = char_attr.ATTR_BOLD ∧ b = char_attr.ATTR_UNDERLINE) ∨
       (a = char_attr.ATTR_UNDERLINE ∧ b = char_attr.ATTR_BOLD))) := by
  refine ⟨rfl, rfl, rfl, rfl, rfl, by decide, by decide, ?_, by decide⟩
  intro a b h
  cases a <;> cases b <;> first | rfl | exact absurd h (by decide)

/-! ## The cell grid -/

/-- The row-major index stays below lines * cols. -/
theorem rowMajorIndex_lt (cols lines x y : Nat) (hx : x < cols) (hy : y < lines) :
    rowMajorIndex cols x y < lines * cols := by
  unfold rowMajorIndex
  calc y * cols + x < y * cols + cols := by omega
    _ = (y + 1) * cols := by ring
    _ ≤ lines * cols := Nat.mul_le_mul_right cols hy

/-- The row-major index tells positions apart. -/
theorem rowMajorIndex_inj (cols x y u v : Nat) (hx : x < cols) (hu : u < cols)
    (h : rowMajorIndex cols x y = rowMajorIndex cols u v) : x = u ∧ y = v := by
  unfold rowMajorIndex at h
  have hc : 0 < cols := by omega
  have hxm : (y * cols + x) % cols = x := by
    rw [Nat.add_comm, Nat.add_mul_mod_self_right, Nat.mod_eq_of_lt hx]
  have hum : (v * cols + u) % cols = u := by
    rw [Nat.add_comm, Nat.add_mul_mod_self_right, Nat.mod_eq_of_lt hu]
  have hxu : x = u := by rw [← hxm, ← hum, h]
  subst hxu
  have hm : y * cols = v * cols := by omega
  exact ⟨rfl, Nat.eq_of_mul_eq_mul_right hc hm⟩

/-- The rows of a grid laid end to end hold lines * cols cells. -/
theorem isGrid.length_flatten {α : Type} {cols lines : Nat} {rows : List (List α)}
    (hg : isGrid cols lines rows) : rows.flatten.length = lines * cols := by
  obtain ⟨hl, hr⟩ := hg
  subst hl
  induction rows with
  | nil => simp
  | cons r rs ih =>
    have h1 : r.length = cols := hr r (List.mem_cons_self r rs)
    have h2 := ih (fun q hq => hr q (List.mem_cons_of_mem r hq))
    simp only [List.flatten_cons, List.length_append, List.length_cons, h1, h2]
    ring

/-- The cell at the row-major index of the rows laid end to end is
`cells[y][x]`. -/
theorem flatten_rowMajorIndex {α : Type} (cols : Nat) (rows : List (List α))
    (hr : ∀ r ∈ rows, r.length = cols) (x y : Nat) (hx : x < cols) :
    rows.flatten[rowMajorIndex cols x y]? = cellAt rows x y := by
  unfold rowMajorIndex cellAt
  induction rows generalizing y with
  | nil => simp
  | cons r rs ih =>
    have h1 : r.length = cols := hr r (List.mem_cons_self r rs)
    have hrs : ∀ q ∈ rs, q.length = cols := fun q hq => hr q (List.mem_cons_of_mem r hq)
    cases y with
    | zero =>
      simp only [Nat.zero_mul, Nat.zero_add, List.flatten_cons, List.getElem?_cons_zero,
        Option.some_bind]
      exact List.getElem?_append_left (by omega)
    | succ k =>
      have hidx : (k + 1) * cols + x = r.length + (k * cols + x) := by
        rw [h1]; ring
      rw [List.flatten_cons, hidx, List.getElem?_append_right (by omega),
        Nat.add_sub_cancel_left, List.getElem?_cons_succ]
      exact ih hrs k

/-- C4: the five `esc_state` tags are mutually exclusive.  Their values are
pairwise distinct, `STATE_RESET` is 0, each other tag is a single bit, two
different tags share no bit, and testing a tag value `s` against a tag `t`
(by `s == t`, or by `s & t` when `t` is not `STATE_RESET`) succeeds exactly
when `s` is `t`, hence for exactly one tag. -/
theorem esc_state_tags_exclusive (s t : esc_state) :
    esc_state.STATE_RESET.val = 0 ∧
    (s.val = t.val ↔ s = t) ∧
    (t = esc_state.STATE_RESET ∨ ∃ k, k < 4 ∧ t.val = 2 ^ k) ∧
    (s = t ∨ s.val &&& t.val = 0) ∧
    (stateEq s t = true ↔ s = t) ∧
    (t = esc_state.STATE_RESET ∨ (stateAnd s t = true ↔ s = t)) ∧
    (stateTest s t = true ↔ s = t) ∧
    (∃! u, stateTest s u = true) := by
  refine ⟨rfl, ?_, ?_, ?_, ?_, ?_, ?_, ?_⟩
  · cases s <;> cases t <;> decide
  · cases t
    · exact Or.inl rfl
    · exact Or.inr ⟨0, by decide, rfl⟩
    · exact Or.inr ⟨1, by decide, rfl⟩
    · exact Or.inr ⟨2, by decide, rfl⟩
    · exact Or.inr ⟨3, by decide, rfl⟩
  · cases s <;> cases t <;> decide
  · cases s <;> cases t <;> decide
  · cases s <;> cases t <;> decide
  · cases s <;> cases t <;> decide
  · refine ⟨s, ?_, ?_⟩
    · cases s <;> decide
    · intro u hu
      revert hu
      cases s <;> cases u <;> decide

/-! ## Mode flags -/

/-- C5: the four mode flags are independent bits.  For every mode word `m`
and different flags `f` and `g` (neither being `MODE_RESET`): both values are
non-zero and share no bit, setting `f` (`m | f`) or resetting `f` (`m & ~f`)
leaves the test of `g` unchanged while it does set and reset `f` itself, and
`MODE_RESET` has neither flag set. -/
theorem term_mode_flags_independent (m : Nat) (f g : term_mode)
    (hf : f ≠ term_mode.MODE_RESET) (hg : g ≠ term_mode.MODE_RESET) (hfg : f ≠ g) :
    f.val ≠ 0 ∧ g.val ≠ 0 ∧ f.val &&& g.val = 0 ∧
    modeTest (modeSet m f) g = modeTest m g ∧
    modeTest (modeReset m f) g = modeTest m g ∧
    modeTest (modeSet m f) f = true ∧
    modeTest (modeReset m f) f = false ∧
    modeTest term_mode.MODE_RESET.val f = false ∧
    modeTest term_mode.MODE_RESET.val g = false := by
  have hset : (m ||| f.val) &&& g.val = m &&& g.val :=
    or_and_of_disjoint m f.val g.val (by
      revert hfg hf hg
      cases f <;> cases g <;> decide)
  have hreset : (m &&& (0xFFFFFFFF ^^^ f.val)) &&& g.val = m &&& g.val :=
    and_mask_and m _ g.val (by
      revert hfg hf hg
      cases f <;> cases g <;> decide)
  have hself : (m ||| f.val) &&& f.val = f.val := by
    rw [Nat.and_distrib_right, Nat.and_self]
    apply Nat.eq_of_testBit_eq
    intro i
    simp only [Nat.testBit_or, Nat.testBit_and]
    cases m.testBit i <;> cases f.val.testBit i <;> rfl
  have hclear : (m &&& (0xFFFFFFFF ^^^ f.val)) &&& f.val = 0 := by
    rw [Nat.and_assoc]
    have : (0xFFFFFFFF ^^^ f.val) &&& f.val = 0 := by
      cases f <;> decide
    rw [this, Nat.and_zero]
  refine ⟨?_, ?_, ?_, ?_, ?_, ?_, ?_, ?_, ?_⟩
  · revert hf; cases f <;> decide
  · revert hg; cases g <;> decide
  · revert hfg hf hg; cases f <;> cases g <;> decide
  · simp only [modeTest, modeSet, hset]
  · simp only [modeTest, modeReset, hreset]
  · simp only [modeTest, modeSet, hself]
    revert hf; cases f <;> decide
  · simp only [modeTest, modeReset, hclear]
    decide
  · cases f <;> decide
  · cases g <;> decide

/-- C5 at the mode word 6 (cursor-visible and autowrap on), the flag set or
reset being origin mode and the flag tested autowrap. -/
theorem term_mode_flags_independent_witness :
    (term_mode.MODE_ORIGIN ≠ term_mode.MODE_RESET ∧
      term_mode.MODE_AMRIGHT ≠ term_mode.MODE_RESET ∧
      term_mode.MODE_ORIGIN ≠ term_mode.MODE_AMRIGHT) ∧
    modeTest (modeSet 6 term_mode.MODE_ORIGIN) term_mode.MODE_AMRIGHT = true ∧
    modeTest (modeReset 6 term_mode.MODE_ORIGIN) term_mode.MODE_AMRIGHT = true ∧
    modeTest 6 term_mode.MODE_AMRIGHT = true := by
  have h := term_mode_flags_independent 6 term_mode.MODE_ORIGIN term_mode.MODE_AMRIGHT
    (by decide) (by decide) (by decide)
  have h6 : modeTest 6 term_mode.MODE_AMRIGHT = true := by decide
  refine ⟨by decide, ?_, ?_, h6⟩
  · rw [h.2.2.2.1, h6]
  · rw [h.2.2.2.2.1, h6]

/-! ## Parsed arguments -/

theorem parm_t.filled_le (p : parm_t) : p.filled ≤ MAX_ARGS := by
  unfold parm_t.filled
  calc List.countP (fun i => (p.argv i).isSome) (List.finRange MAX_ARGS)
      ≤ (List.finRange MAX_ARGS).length := List.countP_le_length _
    _ = MAX_ARGS := List.length_finRange MAX_ARGS

/-- C7: `MAX_ARGS` is 16, `argv` has exactly `MAX_ARGS` slots, and a well
formed `parm_t` has 0 ≤ argc ≤ 16 with every index below `argc` the index of
a slot of `argv`. -/
theorem parm_t_argc_bounded (p : parm_t) (h : p.wellFormed) :
    MAX_ARGS = 16 ∧ Fintype.card (Fin MAX_ARGS) = 16 ∧
    0 ≤ p.argc ∧ p.argc ≤ 16 ∧
    ∀ i : Nat, (i : Int) < p.argc → ∃ j : Fin MAX_ARGS, j.val = i := by
  have hle := p.filled_le
  unfold parm_t.wellFormed at h
  have hmax : MAX_ARGS = 16 := rfl
  refine ⟨hmax, (Fintype.card_fin MAX_ARGS).trans hmax, by omega, by omega, ?_⟩
  intro i hi
  exact ⟨⟨i, by omega⟩, rfl⟩

/-- C7 at a `parm_t` with two parsed arguments. -/
theorem parm_t_argc_bounded_witness :
    parm_two.wellFormed ∧ 0 ≤ parm_two.argc ∧ parm_two.argc ≤ 16 ∧
    ∃ j : Fin MAX_ARGS, j.val = 1 := by
  have hw : parm_two.wellFormed := by decide
  have h := parm_t_argc_bounded parm_two hw
  exact ⟨hw, h.2.2.1, h.2.2.2.1, h.2.2.2.2 1 (by decide)⟩

/-! ## The glyph table -/

/-- C8: the glyph table has `UCS2_CHARS` = 0x10000 slots, one per code point
of the Basic Multilingual Plane: a code held in `charset_t.code` is an index
of the table exactly when it is at most 0xFFFF. -/
theorem glyph_index_valid_iff_bmp {G : Type} (t : terminal_t G) (cs : charset_t) :
    UCS2_CHARS = 0x10000 ∧ Fintype.card (Fin UCS2_CHARS) = 0x10000 ∧
    ((t.glyphAt cs.code).isSome = true ↔ cs.code ≤ 0xFFFF) := by
  have hsz : UCS2_CHARS = 0x10000 := rfl
  refine ⟨hsz, (Fintype.card_fin UCS2_CHARS).trans hsz, ?_⟩
  unfold terminal_t.glyphAt
  by_cases h : cs.code < UCS2_CHARS
  · simp only [h, dite_true, Option.isSome_some, true_iff]
    omega
  · simp only [h, dite_false, Option.isSome_none]
    constructor
    · intro hf
      exact absurd hf (by decide)
    · intro hc
      exact absurd (show cs.code < UCS2_CHARS by omega) h

/-! ## Cell widths -/

/-- A placed half-width glyph is written at the cursor, which moves on by one
column. -/
theorem placeGlyph_half (row : List glyph_width) (x : Nat) (row' : List glyph_width)
    (x' : Nat) (h : placeGlyph row x glyph_width.HALF = some (row', x')) :
    x + 1 < row.length ∧ row' = row.set x glyph_width.HALF ∧ x' = x + 1 := by
  simp only [placeGlyph, glyph_width.columnCount] at h
  split at h
  · rename_i hlt
    simp at h
    exact ⟨hlt, h.1.symm, h.2.symm⟩
  · exact absurd h (by simp)

/-- A placed wide glyph is written at the cursor with its placeholder after
it, and the cursor moves on by two columns. -/
theorem placeGlyph_wide (row : List glyph_width) (x : Nat) (row' : List glyph_width)
    (x' : Nat) (h : placeGlyph row x glyph_width.WIDE = some (row', x')) :
    x + 2 < row.length ∧
    row' = (row.set x glyph_width.WIDE).set (x + 1) glyph_width.NEXT_TO_WIDE ∧
    x' = x + 2 := by
  simp only [placeGlyph, glyph_width.columnCount] at h
  split at h
  · rename_i hlt
    simp at h
    exact ⟨hlt, h.1.symm, h.2.symm⟩
  · exact absurd h (by simp)

end Yaft
